import Mathlib

/-!
Shallow embedding of parts of the `agent-sdk-go` repository, together with
proofs about its retry policy, observability sinks, flow/skill registries
and delivery-target normalization.

Modelling conventions:
* Go `time.Duration` (an `int64` count of nanoseconds) is modelled as `Int`;
  where the backoff loops multiply durations, the two's-complement
  wrap-around of Go's `int64` multiplication is made explicit by `i64`.
* Go strings are modelled as `List Char`; the empty string is `[]`.
* Go `error` values are modelled as `Option (List Char)` (a `some` carries
  the message returned by `Error()`), or as `Except (List Char)` for
  functions returning an error alongside their effect.
* Go maps (`map[K]V`) are modelled as association lists with unique keys;
  `mapGet` and `mapSet` mirror map lookup and assignment.
* `math/rand.Float64()` results are modelled as rationals `r` with
  `0 ≤ r < 1`; Go's conversion of a float to an integer type truncates
  toward zero, modelled by `goFloatToInt`.
-/

namespace AgentSDK

/-! ### Go map model: `map[K]V` as an association list with unique keys -/

/-- Map lookup, `v, ok := m[k]` (the `Option` is `none` when `ok` is false). -/
def mapGet {κ α : Type} [DecidableEq κ] (m : List (κ × α)) (k : κ) : Option α :=
  match m with
  | [] => none
  | (k', v) :: rest => if k' = k then some v else mapGet rest k

/-- Map assignment, `m[k] = v`: replaces the binding of `k` if present,
otherwise adds a new binding. -/
def mapSet {κ α : Type} [DecidableEq κ] (m : List (κ × α)) (k : κ) (v : α) : List (κ × α) :=
  match m with
  | [] => [(k, v)]
  | (k', v') :: rest => if k' = k then (k, v) :: rest else (k', v') :: mapSet rest k v

namespace Agent

/-! ### Embedding of the retry-policy file (package `agent`) -/

/-- Go constant `defaultBaseBackoff = 200 * time.Millisecond`, in nanoseconds. -/
def defaultBaseBackoff : Int := 200 * 1000000

/-- Go constant `defaultMaxBackoff = 2 * time.Second`, in nanoseconds. -/
def defaultMaxBackoff : Int := 2 * 1000000000

/-- Go constant `rateLimitBaseBackoff = 30 * time.Second`, in nanoseconds. -/
def rateLimitBaseBackoff : Int := 30 * 1000000000

/-- Go constant `rateLimitMaxBackoff = 120 * time.Second`, in nanoseconds. -/
def rateLimitMaxBackoff : Int := 120 * 1000000000

/-- Go struct `RetryPolicy`. Durations are nanosecond counts. -/
structure RetryPolicy where
  MaxAttempts : Int
  BaseBackoff : Int
  MaxBackoff : Int
  RateLimitMaxAttempts : Int
  RateLimitBaseBackoff : Int
  RateLimitMaxBackoff : Int
deriving DecidableEq, Repr

/-- Go function `defaultRetryPolicy`. -/
def defaultRetryPolicy : RetryPolicy where
  MaxAttempts := 1
  BaseBackoff := defaultBaseBackoff
  MaxBackoff := defaultMaxBackoff
  RateLimitMaxAttempts := 3
  RateLimitBaseBackoff := rateLimitBaseBackoff
  RateLimitMaxBackoff := rateLimitMaxBackoff

/-- Go function `normalizeRetryPolicy`. The Go code mutates `out` field by
field; each `if` below reads only fields that the Go code has already
finalized at that point, so the sequential mutation linearizes into `let`s. -/
def normalizeRetryPolicy (p : RetryPolicy) : RetryPolicy :=
  let maxAttempts := if p.MaxAttempts < 1 then 1 else p.MaxAttempts
  let base := if p.BaseBackoff ≤ 0 then defaultBaseBackoff else p.BaseBackoff
  let maxB0 := if p.MaxBackoff ≤ 0 then defaultMaxBackoff else p.MaxBackoff
  let maxB := if maxB0 < base then base else maxB0
  let rlAttempts := if p.RateLimitMaxAttempts ≤ 0 then 3 else p.RateLimitMaxAttempts
  let rlBase := if p.RateLimitBaseBackoff ≤ 0 then rateLimitBaseBackoff
    else p.RateLimitBaseBackoff
  let rlMax0 := if p.RateLimitMaxBackoff ≤ 0 then rateLimitMaxBackoff
    else p.RateLimitMaxBackoff
  let rlMax := if rlMax0 < rlBase then rlBase else rlMax0
  ⟨maxAttempts, base, maxB, rlAttempts, rlBase, rlMax⟩

/-- Go `strings.ToLower` restricted to the ASCII range (the rate-limit
patterns are all ASCII). -/
def toLowerCL (s : List Char) : List Char := s.map Char.toLower

/-- Helper for `containsCL`: does `s` start with `pat`?
(Go `strings.HasPrefix`.) -/
def hasPrefixCL : List Char → List Char → Bool
  | _, [] => true
  | [], _ :: _ => false
  | c :: cs, d :: ds => c == d && hasPrefixCL cs ds

/-- Go `strings.Contains s pat`: does `pat` occur as a contiguous substring
of `s`? -/
def containsCL : List Char → List Char → Bool
  | [], pat => hasPrefixCL [] pat
  | c :: cs, pat => hasPrefixCL (c :: cs) pat || containsCL cs pat

/-- Go function `IsRateLimitError`. A `none` argument is a nil error. -/
def IsRateLimitError (err : Option (List Char)) : Bool :=
  match err with
  | none => false
  | some msg =>
    let errStr := toLowerCL msg
    containsCL errStr "rate_limit".toList ||
    containsCL errStr "rate limit".toList ||
    containsCL errStr "429".toList ||
    containsCL errStr "too many requests".toList

/-- Go's conversion `time.Duration(x)` of a float `x` to an integer type:
truncation toward zero. The float is modelled as a rational. -/
def goFloatToInt (x : ℚ) : Int := if 0 ≤ x then ⌊x⌋ else ⌈x⌉

/-- Two's-complement wrap-around of Go `int64` arithmetic: reduces an
integer into `[-2^63, 2^63)`, exactly as Go's `int64` multiplication wraps
on overflow. -/
def i64 (x : Int) : Int :=
  (x + 9223372036854775808) % 18446744073709551616 - 9223372036854775808

/-- The loop of `rateLimitBackoffForAttempt`:
`for i := 1; i < retryNumber; i++ { delay = delay * 3 / 2;
 if delay >= cap { delay = cap; break } }`,
with fuel `retryNumber - 1`. Go `int64` multiplication wraps on overflow
(`i64`) and `int64` division truncates toward zero (`Int.tdiv`). -/
def rlGrow (cap : Int) : Nat → Int → Int
  | 0, delay => delay
  | k + 1, delay =>
    let d := Int.tdiv (i64 (delay * 3)) 2
    if cap ≤ d then cap else rlGrow cap k d

/-- Go method `RetryPolicy.rateLimitBackoffForAttempt`. `r` models the
`rand.Float64()` draw made for the jitter. -/
def rateLimitBackoffForAttempt (p : RetryPolicy) (retryNumber : Int) (r : ℚ) : Int :=
  let n := if retryNumber < 1 then 1 else retryNumber
  let d0 := rlGrow p.RateLimitMaxBackoff (n - 1).toNat p.RateLimitBaseBackoff
  let delay := if p.RateLimitMaxBackoff < d0 then p.RateLimitMaxBackoff else d0
  let jitter := goFloatToInt (r * (2 / 5 : ℚ) - 1 / 5) * delay
  delay + jitter

/-- The value of `rateLimitBackoffForAttempt` stripped of its jitter term:
the 1.5-growth schedule value capped at `RateLimitMaxBackoff`. -/
def rateLimitDelayNoJitter (p : RetryPolicy) (retryNumber : Int) : Int :=
  let n := if retryNumber < 1 then 1 else retryNumber
  let d0 := rlGrow p.RateLimitMaxBackoff (n - 1).toNat p.RateLimitBaseBackoff
  if p.RateLimitMaxBackoff < d0 then p.RateLimitMaxBackoff else d0

/-- The loop of `backoffForAttempt`:
`for i := 1; i < retryNumber; i++ { delay *= 2;
 if delay >= cap { return cap } }`
followed by the post-loop `if delay > cap { return cap }; return delay`
(which only runs when the loop completed without the early return). The
`int64` doubling wraps on overflow (`i64`). -/
def genGrow (cap : Int) : Nat → Int → Int
  | 0, delay => if cap < delay then cap else delay
  | k + 1, delay =>
    let d := i64 (delay * 2)
    if cap ≤ d then cap else genGrow cap k d

/-- Go method `RetryPolicy.backoffForAttempt`. -/
def backoffForAttempt (p : RetryPolicy) (retryNumber : Int) : Int :=
  let n := if retryNumber < 1 then 1 else retryNumber
  genGrow p.MaxBackoff (n - 1).toNat p.BaseBackoff

/-- The uncapped growth schedule of the spec's rate-limit backoff: the base
delay grown by a factor of 1.5 (integer `* 3 / 2`) once per prior retry.
This is the mathematical schedule, without `int64` wrap-around. -/
def schedule15 : Int → Nat → Int
  | b, 0 => b
  | b, k + 1 => schedule15 (Int.tdiv (b * 3) 2) k

end Agent

namespace Observe

/-! ### Embedding of `observe/sink.go` -/

/-- Go method `MultiSink.Emit`, for one event. A downstream sink is
represented by an identifier `s : σ`, and `respond s` is the error that
`s.Emit(ctx, event)` returns for the event under consideration (`none` is
a nil error). The first component records, in order, the sinks actually
invoked; the second is the returned error. -/
def multiSinkEmit {σ : Type} (sinks : List σ) (respond : σ → Option (List Char)) :
    List σ × Option (List Char) :=
  match sinks with
  | [] => ([], none)
  | s :: rest =>
    match respond s with
    | some err => ([s], some err)
    | none =>
      let out := multiSinkEmit rest respond
      (s :: out.1, out.2)

/-- State of an `AsyncSink` visible to `Emit`: the events queued in the
buffered channel `queue`, the channel's capacity, and whether `done` has
been closed by `Close`. Events `E` are opaque payloads; the value handed to
`Emit` stands for the already-normalized local copy that the Go code
enqueues after calling `event.Normalize()`. -/
structure AsyncState (E : Type) where
  queued : List E
  capacity : Nat
  closed : Bool
deriving DecidableEq

/-- One execution of `AsyncSink.Emit` as a relation from the pre-state to
the pair (post-state, returned error). The Go code first polls `done`
(`closing`), then runs a `select` over `ctx.Done()` (`ctxDone`), `done`
(same outcome as `closing`; `closed` does not change during the call in
this single-step model), the channel send (`enqueue`, ready exactly when
the buffer has space), and a `default` branch (`dropFull`), which Go takes
only when no other case is ready. When several cases are ready Go picks one
at random, hence a relation rather than a function. `ctx.Err()` is
modelled as the fixed message `context error`. -/
inductive EmitStep {E : Type} (st : AsyncState E) (ctxCancelled : Bool) (ev : E) :
    AsyncState E × Option (List Char) → Prop where
  | closing : st.closed = true → EmitStep st ctxCancelled ev (st, none)
  | ctxDone : st.closed = false → ctxCancelled = true →
      EmitStep st ctxCancelled ev (st, some "context error".toList)
  | enqueue : st.closed = false → st.queued.length < st.capacity →
      EmitStep st ctxCancelled ev ({ st with queued := st.queued ++ [ev] }, none)
  | dropFull : st.closed = false → ctxCancelled = false →
      st.capacity ≤ st.queued.length →
      EmitStep st ctxCancelled ev (st, none)

end Observe

namespace Flow

/-! ### Embedding of `flow/flow.go` -/

/-- Go struct `flow.Definition`, as stored in the registry. The registry
map stores pointers (`*Definition`) and never inspects anything beyond
`Name`; `ptr` models the pointer identity carrying all other fields. -/
structure Definition where
  Name : String
  ptr : Nat
deriving DecidableEq, Repr

/-- The global registry `flows = map[string]*Definition{}`. -/
abbrev Registry := List (String × Definition)

/-- Go function `flow.Register`. A `none` argument is a nil pointer. The
result pairs the updated registry with the returned error. -/
def Register (reg : Registry) (f : Option Definition) : Registry × Except String Unit :=
  match f with
  | none => (reg, .error "flow definition is nil")
  | some f =>
    if f.Name = "" then (reg, .error "flow name is required")
    else
      match mapGet reg f.Name with
      | some _ => (reg, .error "flow already registered")
      | none => (mapSet reg f.Name f, .ok ())

/-- Go function `flow.Upsert`. -/
def Upsert (reg : Registry) (f : Option Definition) : Registry × Except String Unit :=
  match f with
  | none => (reg, .error "flow definition is nil")
  | some f =>
    if f.Name = "" then (reg, .error "flow name is required")
    else (mapSet reg f.Name f, .ok ())

/-- Go function `flow.Get`. -/
def Get (reg : Registry) (name : String) : Option Definition × Bool :=
  (mapGet reg name, (mapGet reg name).isSome)

end Flow

namespace Skill

/-! ### Embedding of `skill/registry.go`, `skill/loader.go` and the
built-in skills -/

/-- Go struct `skill.Skill`, as stored in the registry. As for flows, the
registry stores pointers and only reads `Name`; `ptr` models pointer
identity (description, instructions, allowed tools, ...). -/
structure Skill where
  Name : String
  ptr : Nat
deriving DecidableEq, Repr

/-- The global registry `skills = map[string]*Skill{}`. -/
abbrev Registry := List (String × Skill)

/-- Go function `skill.Register`. -/
def Register (reg : Registry) (s : Option Skill) : Registry × Except String Unit :=
  match s with
  | none => (reg, .error "skill is nil")
  | some s =>
    if s.Name = "" then (reg, .error "skill name is required")
    else
      match mapGet reg s.Name with
      | some _ => (reg, .error "skill already registered")
      | none => (mapSet reg s.Name s, .ok ())

/-- Go function `skill.Get` (first component only; the Boolean is
`isSome`). -/
def Get (reg : Registry) (name : String) : Option Skill :=
  mapGet reg name

/-- Go function `loadSkillFile`. File IO and front-matter parsing are
outside the model: `parsed` is the result of `ParseFile(path)` (`.error`
when parsing failed, `.ok s` with the parsed skill otherwise). -/
def loadSkillFile (reg : Registry) (parsed : Except String Skill) :
    Registry × Except String Unit :=
  match parsed with
  | .error e => (reg, .error e)
  | .ok s =>
    if (Get reg s.Name).isSome then (reg, .ok ())
    else Register reg (some s)

/-- Go function `RegisterBuiltins`: registers each built-in skill,
discarding the error (`_ = Register(s)`). -/
def RegisterBuiltins (reg : Registry) (builtins : List Skill) : Registry :=
  builtins.foldl (fun r s => (Register r (some s)).1) reg

/-- The names and pointer identities of the `builtinSkills` slice. -/
def builtinSkills : List Skill :=
  [⟨"k8s-debug", 0⟩, ⟨"incident-response", 1⟩, ⟨"code-audit", 2⟩, ⟨"secure-defaults", 3⟩]

end Skill

namespace Delivery

/-! ### Embedding of `delivery/target.go` -/

/-- Go `strings.TrimSpace`: whitespace removed from both ends.
`List.rdropWhile p` is `reverse ∘ dropWhile p ∘ reverse`, the right-hand
trim. -/
def trimSpace (s : List Char) : List Char :=
  List.rdropWhile Char.isWhitespace (List.dropWhile Char.isWhitespace s)

/-- Go struct `delivery.Target`. `Metadata` is a `map[string]string`,
modelled as an association list (in iteration order). -/
structure Target where
  Channel : List Char
  Destination : List Char
  ThreadID : List Char
  UserID : List Char
  Metadata : List (List Char × List Char)
deriving DecidableEq

/-- The metadata loop of `Normalize`: builds `out.Metadata` from
`in.Metadata`, trimming keys and values and skipping entries whose trimmed
key is empty. -/
def normalizeMeta (l : List (List Char × List Char)) : List (List Char × List Char) :=
  l.foldl
    (fun acc kv =>
      let key := trimSpace kv.1
      if key = [] then acc else mapSet acc key (trimSpace kv.2))
    []

/-- Invariant of the metadata map produced by `Normalize`: keys are
pairwise distinct, trimmed and non-empty, and values are trimmed. -/
def MetaNormal (l : List (List Char × List Char)) : Prop :=
  (l.map Prod.fst).Nodup ∧
  ∀ kv ∈ l, trimSpace kv.1 = kv.1 ∧ kv.1 ≠ [] ∧ trimSpace kv.2 = kv.2

/-- Go function `delivery.Normalize`. `none` models a nil `*Target`.
The Go guard `len(in.Metadata) > 0` and the final
`if len(out.Metadata) == 0 { out.Metadata = nil }` both collapse onto the
empty list in this model. -/
def Normalize (t : Option Target) : Option Target :=
  match t with
  | none => none
  | some t =>
    let out : Target :=
      { Channel := trimSpace t.Channel
        Destination := trimSpace t.Destination
        ThreadID := trimSpace t.ThreadID
        UserID := trimSpace t.UserID
        Metadata := if t.Metadata = [] then [] else normalizeMeta t.Metadata }
    if out.Channel = [] ∧ out.Destination = [] ∧ out.ThreadID = [] ∧
        out.UserID = [] ∧ out.Metadata = [] then none
    else some out

end Delivery

/-! ## Theorems -/

namespace Agent

/-! ### Retry-policy helper lemmas -/

theorem i64_eq_self {x : Int} (h1 : -(2 ^ 63) ≤ x) (h2 : x < 2 ^ 63) : i64 x = x := by
  unfold i64
  have e : (2 : Int) ^ 63 = 9223372036854775808 := by norm_num
  rw [e] at h1 h2
  omega

theorem tdiv32_ge {d : Int} (hd : 0 < d) : d ≤ Int.tdiv (d * 3) 2 := by
  rw [Int.tdiv_eq_ediv (by omega) (by omega)]
  have h2 : d * 2 ≤ d * 3 := by omega
  have := Int.ediv_le_ediv (by norm_num : (0 : Int) < 2) h2
  rwa [Int.mul_ediv_cancel d (by norm_num)] at this

theorem schedule15_ge {d : Int} (hd : 0 < d) (k : Nat) :
    d ≤ schedule15 d k ∧ 0 < schedule15 d k := by
  induction k generalizing d with
  | zero => exact ⟨le_refl d, hd⟩
  | succ k ih =>
    have h1 := tdiv32_ge hd
    have h2 := ih (d := Int.tdiv (d * 3) 2) (by omega)
    exact ⟨le_trans h1 h2.1, h2.2⟩

theorem rlGrow_eq_min (cap : Int) (hcap : 3 * cap < 2 ^ 63) (k : Nat) :
    ∀ d : Int, 0 < d → d ≤ cap → rlGrow cap k d = min (schedule15 d k) cap := by
  induction k with
  | zero =>
    intro d _ hdc
    simp only [rlGrow, schedule15]
    exact (min_eq_left hdc).symm
  | succ k ih =>
    intro d hd hdc
    have h63 : (2 : Int) ^ 63 = 9223372036854775808 := by norm_num
    have hw : i64 (d * 3) = d * 3 := by
      refine i64_eq_self ?_ ?_
      · rw [h63]; omega
      · rw [h63]; rw [h63] at hcap; omega
    simp only [rlGrow, schedule15, hw]
    have hpos : 0 < Int.tdiv (d * 3) 2 := lt_of_lt_of_le hd (tdiv32_ge hd)
    by_cases h : cap ≤ Int.tdiv (d * 3) 2
    · rw [if_pos h]
      have hs := (schedule15_ge hpos k).1
      exact (min_eq_right (le_trans h hs)).symm
    · rw [if_neg h]
      exact ih (Int.tdiv (d * 3) 2) hpos (by omega)

theorem genGrow_eq_min (cap : Int) (hcap : 2 * cap < 2 ^ 63) (k : Nat) :
    ∀ d : Int, 0 < d → d ≤ cap → genGrow cap k d = min (d * 2 ^ k) cap := by
  induction k with
  | zero =>
    intro d _ hdc
    simp only [genGrow, pow_zero, mul_one]
    rw [if_neg (by omega)]
    exact (min_eq_left hdc).symm
  | succ k ih =>
    intro d hd hdc
    have h63 : (2 : Int) ^ 63 = 9223372036854775808 := by norm_num
    have hw : i64 (d * 2) = d * 2 := by
      refine i64_eq_self ?_ ?_
      · rw [h63]; omega
      · rw [h63]; rw [h63] at hcap; omega
    simp only [genGrow, hw]
    by_cases h : cap ≤ d * 2
    · rw [if_pos h]
      have h1 : (0 : Int) < 2 ^ k := pow_pos (by norm_num) k
      have h2 := mul_le_mul_of_nonneg_left (by omega : (1 : Int) ≤ 2 ^ k)
        (by omega : (0 : Int) ≤ d * 2)
      rw [mul_one] at h2
      have h3 : d * 2 ^ (k + 1) = d * 2 * 2 ^ k := by ring
      rw [h3]
      exact (min_eq_right (le_trans h h2)).symm
    · rw [if_neg h]
      rw [ih (d * 2) (by omega) (by omega)]
      congr 1
      ring

theorem normalize_BaseBackoff_pos (p : RetryPolicy) :
    0 < (normalizeRetryPolicy p).BaseBackoff := by
  simp only [normalizeRetryPolicy, defaultBaseBackoff]
  split_ifs <;> omega

theorem normalize_Base_le_Max (p : RetryPolicy) :
    (normalizeRetryPolicy p).BaseBackoff ≤ (normalizeRetryPolicy p).MaxBackoff := by
  simp only [normalizeRetryPolicy, defaultBaseBackoff, defaultMaxBackoff]
  split_ifs <;> omega

theorem normalize_rlBase_pos (p : RetryPolicy) :
    0 < (normalizeRetryPolicy p).RateLimitBaseBackoff := by
  simp only [normalizeRetryPolicy, rateLimitBaseBackoff]
  split_ifs <;> omega

theorem normalize_rlBase_le_rlMax (p : RetryPolicy) :
    (normalizeRetryPolicy p).RateLimitBaseBackoff ≤
      (normalizeRetryPolicy p).RateLimitMaxBackoff := by
  simp only [normalizeRetryPolicy, rateLimitBaseBackoff, rateLimitMaxBackoff]
  split_ifs <;> omega

theorem goFloatToInt_jitter_zero (r : ℚ) (h0 : 0 ≤ r) (h1 : r < 1) :
    goFloatToInt (r * (2 / 5) - 1 / 5) = 0 := by
  unfold goFloatToInt
  have hx1 : r * (2 / 5 : ℚ) - 1 / 5 < 1 := by linarith
  have hx2 : (-1 : ℚ) < r * (2 / 5) - 1 / 5 := by linarith
  split_ifs with h
  · rw [Int.floor_eq_zero_iff]
    exact Set.mem_Ico.mpr ⟨h, hx1⟩
  · rw [Int.ceil_eq_zero_iff]
    exact Set.mem_Ioc.mpr ⟨hx2, le_of_lt (lt_of_not_ge h)⟩

theorem rateLimitBackoff_jitterFree (p : RetryPolicy) (n : Int) (r : ℚ)
    (h0 : 0 ≤ r) (h1 : r < 1) :
    rateLimitBackoffForAttempt p n r = rateLimitDelayNoJitter p n := by
  simp only [rateLimitBackoffForAttempt, rateLimitDelayNoJitter]
  rw [goFloatToInt_jitter_zero r h0 h1]
  ring

theorem rateLimitDelayNoJitter_eq_min (q : RetryPolicy) (n : Int) (hn : 1 ≤ n)
    (hcap : 3 * (normalizeRetryPolicy q).RateLimitMaxBackoff < 2 ^ 63) :
    rateLimitDelayNoJitter (normalizeRetryPolicy q) n =
      min (schedule15 (normalizeRetryPolicy q).RateLimitBaseBackoff (n - 1).toNat)
        (normalizeRetryPolicy q).RateLimitMaxBackoff := by
  have hb := normalize_rlBase_pos q
  have hbc := normalize_rlBase_le_rlMax q
  have hn' : (if n < 1 then 1 else n) = n := if_neg (by omega)
  simp only [rateLimitDelayNoJitter, hn']
  rw [rlGrow_eq_min _ hcap _ _ hb hbc]
  rw [if_neg (by omega)]

/-! ### Claims C1, C2, C3, C9 -/

/-- Counterexample to claim C1 as stated: at the normalized policy with
`RateLimitBaseBackoff = 4e18` ns and `RateLimitMaxBackoff = 9e18` ns (both
valid `int64` durations) and retry number 2, the program wraps `delay * 3`
in `int64` and returns `-3223372036854775808` ns, which is not the capped
1.5-growth schedule value `6e18` plus any jitter of at most ±20% of it. -/
theorem rateLimitBackoff_band_counterexample :
    rateLimitBackoffForAttempt
        (normalizeRetryPolicy
          (RetryPolicy.mk 1 200000000 2000000000 3 4000000000000000000 9000000000000000000))
        2 0 = -3223372036854775808 ∧
    ¬∃ j : Int,
      rateLimitBackoffForAttempt
          (normalizeRetryPolicy
            (RetryPolicy.mk 1 200000000 2000000000 3 4000000000000000000 9000000000000000000))
          2 0 =
        min (schedule15
            (normalizeRetryPolicy
              (RetryPolicy.mk 1 200000000 2000000000 3 4000000000000000000
                9000000000000000000)).RateLimitBaseBackoff ((2 : Int) - 1).toNat)
          (normalizeRetryPolicy
            (RetryPolicy.mk 1 200000000 2000000000 3 4000000000000000000
              9000000000000000000)).RateLimitMaxBackoff + j ∧
      5 * |j| ≤
        min (schedule15
            (normalizeRetryPolicy
              (RetryPolicy.mk 1 200000000 2000000000 3 4000000000000000000
                9000000000000000000)).RateLimitBaseBackoff ((2 : Int) - 1).toNat)
          (normalizeRetryPolicy
            (RetryPolicy.mk 1 200000000 2000000000 3 4000000000000000000
              9000000000000000000)).RateLimitMaxBackoff := by
  have h := rateLimitBackoff_jitterFree
    (normalizeRetryPolicy
      (RetryPolicy.mk 1 200000000 2000000000 3 4000000000000000000 9000000000000000000))
    2 0 (by norm_num) (by norm_num)
  have hval : rateLimitDelayNoJitter
      (normalizeRetryPolicy
        (RetryPolicy.mk 1 200000000 2000000000 3 4000000000000000000 9000000000000000000))
      2 = -3223372036854775808 := by decide
  have hmin : min (schedule15
      (normalizeRetryPolicy
        (RetryPolicy.mk 1 200000000 2000000000 3 4000000000000000000
          9000000000000000000)).RateLimitBaseBackoff ((2 : Int) - 1).toNat)
      (normalizeRetryPolicy
        (RetryPolicy.mk 1 200000000 2000000000 3 4000000000000000000
          9000000000000000000)).RateLimitMaxBackoff = 6000000000000000000 := by decide
  refine ⟨by rw [h, hval], ?_⟩
  rintro ⟨j, hj1, hj2⟩
  rw [h, hval, hmin] at hj1
  rw [hmin] at hj2
  have hjv : j = -9223372036854775808 := by omega
  rw [hjv] at hj2
  exact absurd hj2 (by decide)

/-- Claim C1 as amended: for every normalized retry policy whose
`RateLimitMaxBackoff` keeps the growth step inside `int64`
(`3 * RateLimitMaxBackoff < 2 ^ 63` ns) and retry number `n ≥ 1`, the
rate-limit backoff equals the base delay grown by a factor of 1.5 per
prior retry and capped at `RateLimitMaxBackoff`, plus a jitter `j` of at
most ±20% of that computed delay; in particular, under the default policy
the first rate-limit retry delay lies between 24s and 36s inclusive. For
larger caps the `int64` multiplication `delay * 3` wraps and the returned
delay diverges from the schedule. -/
theorem rateLimitBackoff_band (q : RetryPolicy) (n : Int) (r : ℚ)
    (hn : 1 ≤ n) (h0 : 0 ≤ r) (h1 : r < 1)
    (hcap : 3 * (normalizeRetryPolicy q).RateLimitMaxBackoff < 2 ^ 63) :
    (∃ j : Int,
      rateLimitBackoffForAttempt (normalizeRetryPolicy q) n r =
        min (schedule15 (normalizeRetryPolicy q).RateLimitBaseBackoff (n - 1).toNat)
          (normalizeRetryPolicy q).RateLimitMaxBackoff + j ∧
      5 * |j| ≤
        min (schedule15 (normalizeRetryPolicy q).RateLimitBaseBackoff (n - 1).toNat)
          (normalizeRetryPolicy q).RateLimitMaxBackoff) ∧
    24 * 1000000000 ≤ rateLimitBackoffForAttempt defaultRetryPolicy 1 r ∧
    rateLimitBackoffForAttempt defaultRetryPolicy 1 r ≤ 36 * 1000000000 := by
  have hdef := rateLimitBackoff_jitterFree defaultRetryPolicy 1 r h0 h1
  have hdefv : rateLimitDelayNoJitter defaultRetryPolicy 1 = 30 * 1000000000 := by decide
  refine ⟨⟨0, ?_, ?_⟩, ?_, ?_⟩
  · rw [rateLimitBackoff_jitterFree _ n r h0 h1,
      rateLimitDelayNoJitter_eq_min q n hn hcap, add_zero]
  · have hb := normalize_rlBase_pos q
    have hbc := normalize_rlBase_le_rlMax q
    have hs := (schedule15_ge hb (n - 1).toNat).1
    simp only [abs_zero, mul_zero]
    omega
  · rw [hdef, hdefv]; norm_num
  · rw [hdef, hdefv]; norm_num

/-- Closed instance of `rateLimitBackoff_band` at `q = defaultRetryPolicy`,
`n = 2`, `r = 1/3`. -/
theorem rateLimitBackoff_band_witness :
    (1 : Int) ≤ 2 ∧ (0 : ℚ) ≤ 1 / 3 ∧ (1 / 3 : ℚ) < 1 ∧
    3 * (normalizeRetryPolicy defaultRetryPolicy).RateLimitMaxBackoff < 2 ^ 63 ∧
    ((∃ j : Int,
      rateLimitBackoffForAttempt (normalizeRetryPolicy defaultRetryPolicy) 2 (1 / 3) =
        min (schedule15 (normalizeRetryPolicy defaultRetryPolicy).RateLimitBaseBackoff
            ((2 : Int) - 1).toNat)
          (normalizeRetryPolicy defaultRetryPolicy).RateLimitMaxBackoff + j ∧
      5 * |j| ≤
        min (schedule15 (normalizeRetryPolicy defaultRetryPolicy).RateLimitBaseBackoff
            ((2 : Int) - 1).toNat)
          (normalizeRetryPolicy defaultRetryPolicy).RateLimitMaxBackoff) ∧
    24 * 1000000000 ≤ rateLimitBackoffForAttempt defaultRetryPolicy 1 (1 / 3) ∧
    rateLimitBackoffForAttempt defaultRetryPolicy 1 (1 / 3) ≤ 36 * 1000000000) :=
  ⟨by norm_num, by norm_num, by norm_num, by decide,
    rateLimitBackoff_band defaultRetryPolicy 2 (1 / 3) (by norm_num) (by norm_num)
      (by norm_num) (by decide)⟩

/-- Counterexample to claim C2 as stated: at the normalized policy with
`BaseBackoff = 6e18` ns and `MaxBackoff = 9e18` ns (both valid `int64`
durations) and retry number 2, the program wraps `delay *= 2` in `int64`
and returns `-6446744073709551616` ns: the min-formula fails and the
backoff is not monotone (the value for `n = 2` is below the one for
`n = 1`). -/
theorem backoffForAttempt_wrap_counterexample :
    backoffForAttempt
        (normalizeRetryPolicy
          (RetryPolicy.mk 1 6000000000000000000 9000000000000000000 3 30000000000
            120000000000)) 2 = -6446744073709551616 ∧
    backoffForAttempt
        (normalizeRetryPolicy
          (RetryPolicy.mk 1 6000000000000000000 9000000000000000000 3 30000000000
            120000000000)) 2 ≠
      min ((normalizeRetryPolicy
          (RetryPolicy.mk 1 6000000000000000000 9000000000000000000 3 30000000000
            120000000000)).BaseBackoff * 2 ^ ((2 : Int) - 1).toNat)
        (normalizeRetryPolicy
          (RetryPolicy.mk 1 6000000000000000000 9000000000000000000 3 30000000000
            120000000000)).MaxBackoff ∧
    backoffForAttempt
        (normalizeRetryPolicy
          (RetryPolicy.mk 1 6000000000000000000 9000000000000000000 3 30000000000
            120000000000)) 2 <
      backoffForAttempt
        (normalizeRetryPolicy
          (RetryPolicy.mk 1 6000000000000000000 9000000000000000000 3 30000000000
            120000000000)) 1 := by
  refine ⟨by decide, by decide, by decide⟩

/-- Claim C2 as amended: for every normalized retry policy whose
`MaxBackoff` keeps the doubling inside `int64`
(`2 * MaxBackoff < 2 ^ 63` ns) and retry number `n ≥ 1`, the generic
backoff equals `min (BaseBackoff * 2 ^ (n - 1)) MaxBackoff`; consequently
it is monotonically non-decreasing in `n` and never exceeds `MaxBackoff`.
For larger caps the `int64` doubling wraps and all three properties fail. -/
theorem backoffForAttempt_min_monotone (q : RetryPolicy) (n : Int) (hn : 1 ≤ n)
    (hcap : 2 * (normalizeRetryPolicy q).MaxBackoff < 2 ^ 63) :
    backoffForAttempt (normalizeRetryPolicy q) n =
      min ((normalizeRetryPolicy q).BaseBackoff * 2 ^ (n - 1).toNat)
        (normalizeRetryPolicy q).MaxBackoff ∧
    (∀ m : Int, n ≤ m →
      backoffForAttempt (normalizeRetryPolicy q) n ≤
        backoffForAttempt (normalizeRetryPolicy q) m) ∧
    backoffForAttempt (normalizeRetryPolicy q) n ≤ (normalizeRetryPolicy q).MaxBackoff := by
  have hb := normalize_BaseBackoff_pos q
  have hbc := normalize_Base_le_Max q
  have key : ∀ j : Int, 1 ≤ j →
      backoffForAttempt (normalizeRetryPolicy q) j =
        min ((normalizeRetryPolicy q).BaseBackoff * 2 ^ (j - 1).toNat)
          (normalizeRetryPolicy q).MaxBackoff := by
    intro j hj
    simp only [backoffForAttempt]
    rw [if_neg (by omega)]
    exact genGrow_eq_min _ hcap _ _ hb hbc
  refine ⟨key n hn, ?_, ?_⟩
  · intro m hm
    rw [key n hn, key m (by omega)]
    refine min_le_min ?_ (le_refl _)
    refine mul_le_mul_of_nonneg_left ?_ (le_of_lt hb)
    exact pow_le_pow_right₀ (by norm_num) (by omega)
  · rw [key n hn]
    exact min_le_right _ _

/-- Closed instance of `backoffForAttempt_min_monotone` at
`q = defaultRetryPolicy`, `n = 3`. -/
theorem backoffForAttempt_min_monotone_witness :
    (1 : Int) ≤ 3 ∧
    2 * (normalizeRetryPolicy defaultRetryPolicy).MaxBackoff < 2 ^ 63 ∧
    (backoffForAttempt (normalizeRetryPolicy defaultRetryPolicy) 3 =
      min ((normalizeRetryPolicy defaultRetryPolicy).BaseBackoff * 2 ^ ((3 : Int) - 1).toNat)
        (normalizeRetryPolicy defaultRetryPolicy).MaxBackoff ∧
    (∀ m : Int, 3 ≤ m →
      backoffForAttempt (normalizeRetryPolicy defaultRetryPolicy) 3 ≤
        backoffForAttempt (normalizeRetryPolicy defaultRetryPolicy) m) ∧
    backoffForAttempt (normalizeRetryPolicy defaultRetryPolicy) 3 ≤
      (normalizeRetryPolicy defaultRetryPolicy).MaxBackoff) :=
  ⟨by norm_num, by decide,
    backoffForAttempt_min_monotone defaultRetryPolicy 3 (by norm_num) (by decide)⟩

/-- Counterexample to claim C3 as stated: the input policy has the positive
value `MaxBackoff = 1`, yet normalization does not preserve it (it raises it
to `BaseBackoff = 2`). -/
theorem normalize_positive_not_preserved :
    0 < (RetryPolicy.mk 1 2 1 3 30 120).MaxBackoff ∧
    (normalizeRetryPolicy (RetryPolicy.mk 1 2 1 3 30 120)).MaxBackoff ≠
      (RetryPolicy.mk 1 2 1 3 30 120).MaxBackoff := by
  decide

/-- Claim C3 as amended: `normalizeRetryPolicy` defaults `MaxAttempts` to 1
when below 1, defaults each backoff field when zero or negative, and
preserves positive values, except that `MaxBackoff` is raised to
`BaseBackoff` whenever it would otherwise be smaller, and likewise
`RateLimitMaxBackoff` is raised to `RateLimitBaseBackoff`. -/
theorem normalizeRetryPolicy_characterization (p : RetryPolicy) :
    normalizeRetryPolicy p =
      ⟨if p.MaxAttempts < 1 then 1 else p.MaxAttempts,
       if p.BaseBackoff ≤ 0 then defaultBaseBackoff else p.BaseBackoff,
       max (if p.MaxBackoff ≤ 0 then defaultMaxBackoff else p.MaxBackoff)
         (if p.BaseBackoff ≤ 0 then defaultBaseBackoff else p.BaseBackoff),
       if p.RateLimitMaxAttempts ≤ 0 then 3 else p.RateLimitMaxAttempts,
       if p.RateLimitBaseBackoff ≤ 0 then rateLimitBaseBackoff
         else p.RateLimitBaseBackoff,
       max (if p.RateLimitMaxBackoff ≤ 0 then rateLimitMaxBackoff
           else p.RateLimitMaxBackoff)
         (if p.RateLimitBaseBackoff ≤ 0 then rateLimitBaseBackoff
           else p.RateLimitBaseBackoff)⟩ := by
  simp only [normalizeRetryPolicy, RetryPolicy.mk.injEq, defaultBaseBackoff,
    defaultMaxBackoff, rateLimitBaseBackoff, rateLimitMaxBackoff]
  refine ⟨trivial, trivial, ?_, trivial, trivial, ?_⟩ <;> split_ifs <;> omega

/-- Counterexample to claim C9 as stated: the computation is deterministic,
but its value is not always the capped 1.5-growth schedule. At the policy
with `RateLimitBaseBackoff = 4e18` ns and `RateLimitMaxBackoff = 9e18` ns
and retry number 2 the program wraps `delay * 3` in `int64` and returns
`-3223372036854775808` ns, not the capped schedule value `6e18` ns. -/
theorem rateLimitBackoff_schedule_counterexample :
    rateLimitBackoffForAttempt
        (RetryPolicy.mk 1 200000000 2000000000 3 4000000000000000000 9000000000000000000)
        2 0 = -3223372036854775808 ∧
    rateLimitBackoffForAttempt
        (RetryPolicy.mk 1 200000000 2000000000 3 4000000000000000000 9000000000000000000)
        2 0 ≠
      min (schedule15
          (RetryPolicy.mk 1 200000000 2000000000 3 4000000000000000000
            9000000000000000000).RateLimitBaseBackoff ((2 : Int) - 1).toNat)
        (RetryPolicy.mk 1 200000000 2000000000 3 4000000000000000000
          9000000000000000000).RateLimitMaxBackoff := by
  have h := rateLimitBackoff_jitterFree
    (RetryPolicy.mk 1 200000000 2000000000 3 4000000000000000000 9000000000000000000)
    2 0 (by norm_num) (by norm_num)
  rw [h]
  exact ⟨by decide, by decide⟩

/-- Claim C9 as amended: the rate-limit backoff is deterministic for every
policy — the jitter term, Go's float-to-`Duration` conversion of a value in
`(-1, 1)`, is always exactly zero, so any two random draws give the same
delay, namely the program's jitter-free delay; and that delay equals the
1.5-growth schedule value capped at `RateLimitMaxBackoff` whenever the
policy is normalized and `3 * RateLimitMaxBackoff < 2 ^ 63` ns, i.e. when
the growth step does not overflow `int64`. -/
theorem rateLimitBackoff_deterministic (p : RetryPolicy) (n : Int) (r₁ r₂ : ℚ)
    (h₁ : 0 ≤ r₁) (h₂ : r₁ < 1) (h₃ : 0 ≤ r₂) (h₄ : r₂ < 1) :
    rateLimitBackoffForAttempt p n r₁ = rateLimitBackoffForAttempt p n r₂ ∧
    rateLimitBackoffForAttempt p n r₁ = rateLimitDelayNoJitter p n ∧
    (∀ q : RetryPolicy, p = normalizeRetryPolicy q →
      3 * p.RateLimitMaxBackoff < 2 ^ 63 → 1 ≤ n →
      rateLimitBackoffForAttempt p n r₁ =
        min (schedule15 p.RateLimitBaseBackoff (n - 1).toNat) p.RateLimitMaxBackoff) := by
  have e₁ := rateLimitBackoff_jitterFree p n r₁ h₁ h₂
  have e₂ := rateLimitBackoff_jitterFree p n r₂ h₃ h₄
  refine ⟨e₁.trans e₂.symm, e₁, ?_⟩
  rintro q rfl hcap hn
  rw [e₁, rateLimitDelayNoJitter_eq_min q n hn hcap]

/-- Closed instance of `rateLimitBackoff_deterministic` at
`p = defaultRetryPolicy`, `n = 2`, `r₁ = 1/4`, `r₂ = 3/4`. -/
theorem rateLimitBackoff_deterministic_witness :
    (0 : ℚ) ≤ 1 / 4 ∧ (1 / 4 : ℚ) < 1 ∧ (0 : ℚ) ≤ 3 / 4 ∧ (3 / 4 : ℚ) < 1 ∧
    (rateLimitBackoffForAttempt defaultRetryPolicy 2 (1 / 4) =
      rateLimitBackoffForAttempt defaultRetryPolicy 2 (3 / 4) ∧
    rateLimitBackoffForAttempt defaultRetryPolicy 2 (1 / 4) =
      rateLimitDelayNoJitter defaultRetryPolicy 2 ∧
    (∀ q : RetryPolicy, defaultRetryPolicy = normalizeRetryPolicy q →
      3 * defaultRetryPolicy.RateLimitMaxBackoff < 2 ^ 63 → (1 : Int) ≤ 2 →
      rateLimitBackoffForAttempt defaultRetryPolicy 2 (1 / 4) =
        min (schedule15 defaultRetryPolicy.RateLimitBaseBackoff ((2 : Int) - 1).toNat)
          defaultRetryPolicy.RateLimitMaxBackoff)) :=
  ⟨by norm_num, by norm_num, by norm_num, by norm_num,
    rateLimitBackoff_deterministic defaultRetryPolicy 2 (1 / 4) (3 / 4)
      (by norm_num) (by norm_num) (by norm_num) (by norm_num)⟩

end Agent

namespace Agent

/-! ### Claim C4 -/

theorem hasPrefixCL_iff : ∀ s pat : List Char, hasPrefixCL s pat = true ↔ pat <+: s := by
  intro s
  induction s with
  | nil =>
    intro pat
    cases pat with
    | nil => exact iff_of_true rfl List.nil_prefix
    | cons d ds =>
      constructor
      · intro h; exact absurd h (by exact Bool.false_ne_true)
      · intro h; exact absurd (List.IsPrefix.length_le h) (by simp)
  | cons c cs ih =>
    intro pat
    cases pat with
    | nil => exact iff_of_true rfl List.nil_prefix
    | cons d ds =>
      rw [show hasPrefixCL (c :: cs) (d :: ds) = (c == d && hasPrefixCL cs ds) from rfl]
      rw [List.cons_prefix_cons, Bool.and_eq_true, beq_iff_eq, ih ds]
      exact ⟨fun h => ⟨h.1.symm, h.2⟩, fun h => ⟨h.1.symm, h.2⟩⟩

theorem containsCL_iff : ∀ s pat : List Char, containsCL s pat = true ↔ pat <:+: s := by
  intro s
  induction s with
  | nil =>
    intro pat
    rw [show containsCL [] pat = hasPrefixCL [] pat from rfl]
    rw [hasPrefixCL_iff, List.prefix_nil, List.infix_nil]
  | cons c cs ih =>
    intro pat
    rw [show containsCL (c :: cs) pat = (hasPrefixCL (c :: cs) pat || containsCL cs pat)
      from rfl]
    rw [Bool.or_eq_true, hasPrefixCL_iff, ih, List.infix_cons_iff]

/-- Claim C4: `IsRateLimitError` returns false on a nil error, and on a
non-nil error returns true exactly when the lowercased message contains one
of the substrings `rate_limit`, `rate limit`, `429`, `too many requests`. -/
theorem isRateLimitError_spec :
    IsRateLimitError none = false ∧
    ∀ msg : List Char,
      (IsRateLimitError (some msg) = true ↔
        ("rate_limit".toList <:+: toLowerCL msg ∨
         "rate limit".toList <:+: toLowerCL msg ∨
         "429".toList <:+: toLowerCL msg ∨
         "too many requests".toList <:+: toLowerCL msg)) := by
  refine ⟨rfl, fun msg => ?_⟩
  simp only [IsRateLimitError, Bool.or_eq_true, containsCL_iff]
  tauto

/-- Closed instance of `isRateLimitError_spec`: evaluates the classifier on
the message `HTTP 429 Too Many Requests` and on a nil error. -/
theorem isRateLimitError_spec_witness :
    IsRateLimitError none = false ∧
    (IsRateLimitError (some "HTTP 429 Too Many Requests".toList) = true ↔
      ("rate_limit".toList <:+: toLowerCL "HTTP 429 Too Many Requests".toList ∨
       "rate limit".toList <:+: toLowerCL "HTTP 429 Too Many Requests".toList ∨
       "429".toList <:+: toLowerCL "HTTP 429 Too Many Requests".toList ∨
       "too many requests".toList <:+: toLowerCL "HTTP 429 Too Many Requests".toList)) :=
  ⟨isRateLimitError_spec.1, isRateLimitError_spec.2 "HTTP 429 Too Many Requests".toList⟩

end Agent

namespace Observe

/-! ### Claims C5 and C6 -/

/-- Claim C5: when the buffer is full and the sink is neither closing nor
the context cancelled, the only possible outcome of `AsyncSink.Emit` is to
return a nil error with the queue unchanged — the event is dropped
silently, and in particular no outcome enqueues it or waits for space. -/
theorem asyncEmit_drop_on_full {E : Type} (st : AsyncState E) (ev : E)
    (out : AsyncState E × Option (List Char))
    (hfull : st.capacity ≤ st.queued.length) (hopen : st.closed = false) :
    EmitStep st false ev out ↔ out = (st, none) := by
  constructor
  · intro h
    cases h with
    | closing h => rfl
    | ctxDone h1 h2 => exact absurd h2 (by simp)
    | enqueue h1 h2 => omega
    | dropFull h1 h2 h3 => rfl
  · rintro rfl
    exact EmitStep.dropFull hopen rfl hfull

/-- Closed instance of `asyncEmit_drop_on_full`: a capacity-1 buffer
already holding one event, sink open, context live. -/
theorem asyncEmit_drop_on_full_witness :
    (AsyncState.mk [0] 1 false : AsyncState Nat).capacity ≤
      (AsyncState.mk [0] 1 false : AsyncState Nat).queued.length ∧
    (AsyncState.mk [0] 1 false : AsyncState Nat).closed = false ∧
    (EmitStep (AsyncState.mk [0] 1 false : AsyncState Nat) false 7
        (AsyncState.mk [0] 1 false, none) ↔
      ((AsyncState.mk [0] 1 false : AsyncState Nat), (none : Option (List Char))) =
        (AsyncState.mk [0] 1 false, none)) :=
  ⟨by decide, by decide,
    asyncEmit_drop_on_full (AsyncState.mk [0] 1 false) 7 (AsyncState.mk [0] 1 false, none)
      (by decide) (by decide)⟩

/-- Claim C6: `MultiSink.Emit` invokes the sinks in order up to and
including the first one returning an error; the invoked sinks are the first
`k + 1` where `k` counts the leading error-free sinks, the returned error is
that of sink `k` when it exists, and when every sink succeeds all `N` sinks
are invoked exactly once and the result is nil. -/
theorem multiSinkEmit_spec {σ : Type} (sinks : List σ)
    (respond : σ → Option (List Char)) :
    multiSinkEmit sinks respond =
      (sinks.take ((sinks.takeWhile fun s => (respond s).isNone).length + 1),
        ((sinks.get? ((sinks.takeWhile fun s => (respond s).isNone).length)).bind
          respond)) ∧
    ((∀ s ∈ sinks, respond s = none) → multiSinkEmit sinks respond = (sinks, none)) := by
  constructor
  · induction sinks with
    | nil => simp [multiSinkEmit]
    | cons s rest ih =>
      cases h : respond s with
      | some err =>
        simp [multiSinkEmit, h, List.takeWhile_cons]
      | none =>
        simp only [multiSinkEmit, h, List.takeWhile_cons, Option.isNone_none,
          if_pos, List.length_cons, List.take_succ_cons, List.get?_cons_succ, ih]
  · intro hall
    induction sinks with
    | nil => simp [multiSinkEmit]
    | cons s rest ih =>
      have hs : respond s = none := hall s (by simp)
      simp only [multiSinkEmit, hs]
      have := ih (fun x hx => hall x (by simp [hx]))
      simp [this]

/-- Closed instance of `multiSinkEmit_spec`: three sinks of which the
second fails. -/
theorem multiSinkEmit_spec_witness :
    (multiSinkEmit [10, 20, 30]
        (fun s => if s = 20 then some "boom".toList else none) =
      ([10, 20, 30].take
          (([10, 20, 30].takeWhile fun s =>
            ((if s = 20 then some "boom".toList else none) : Option (List Char)).isNone).length + 1),
        (([10, 20, 30].get? (([10, 20, 30].takeWhile fun s =>
            ((if s = 20 then some "boom".toList else none) : Option (List Char)).isNone).length)).bind
          (fun s => if s = 20 then some "boom".toList else none))) ∧
    ((∀ s ∈ [10, 20, 30],
        (if s = 20 then some "boom".toList else none) = none) →
      multiSinkEmit [10, 20, 30]
          (fun s => if s = 20 then some "boom".toList else none) = ([10, 20, 30], none))) :=
  multiSinkEmit_spec [10, 20, 30] (fun s => if s = 20 then some "boom".toList else none)

end Observe

/-! ### Go map helper lemmas -/

theorem mapGet_mapSet_self {κ α : Type} [DecidableEq κ] (m : List (κ × α)) (k : κ) (v : α) :
    mapGet (mapSet m k v) k = some v := by
  induction m with
  | nil => simp [mapGet, mapSet]
  | cons p rest ih =>
    obtain ⟨k', v'⟩ := p
    by_cases h : k' = k
    · subst h; simp [mapSet, mapGet]
    · simp [mapSet, mapGet, h, ih]

theorem mapGet_mapSet_ne {κ α : Type} [DecidableEq κ] (m : List (κ × α)) {k k' : κ}
    (v : α) (h : k ≠ k') : mapGet (mapSet m k v) k' = mapGet m k' := by
  induction m with
  | nil => simp [mapGet, mapSet, h]
  | cons p rest ih =>
    obtain ⟨a, b⟩ := p
    by_cases ha : a = k
    · subst ha; simp [mapSet, mapGet, h]
    · simp [mapSet, mapGet, ha, ih]

theorem mapSet_mapSet_self {κ α : Type} [DecidableEq κ] (m : List (κ × α)) (k : κ) (v : α) :
    mapSet (mapSet m k v) k v = mapSet m k v := by
  induction m with
  | nil => simp [mapSet]
  | cons p rest ih =>
    obtain ⟨a, b⟩ := p
    by_cases ha : a = k
    · subst ha; simp [mapSet]
    · simp [mapSet, ha, ih]

theorem mapSet_ne_nil {κ α : Type} [DecidableEq κ] (m : List (κ × α)) (k : κ) (v : α) :
    mapSet m k v ≠ [] := by
  cases m with
  | nil => simp [mapSet]
  | cons p rest =>
    obtain ⟨a, b⟩ := p
    by_cases ha : a = k <;> simp [mapSet, ha]

theorem mapSet_keys {κ α : Type} [DecidableEq κ] (m : List (κ × α)) (k : κ) (v : α) :
    (mapSet m k v).map Prod.fst =
      if k ∈ m.map Prod.fst then m.map Prod.fst else m.map Prod.fst ++ [k] := by
  induction m with
  | nil => simp [mapSet]
  | cons p rest ih =>
    obtain ⟨a, b⟩ := p
    by_cases ha : a = k
    · subst ha; simp [mapSet]
    · simp only [mapSet, if_neg ha, List.map_cons, ih, List.mem_cons]
      have : ¬k = a := fun h => ha h.symm
      split_ifs with h1 h2 h3 <;> simp_all

theorem mapSet_mem {κ α : Type} [DecidableEq κ] {m : List (κ × α)} {k : κ} {v : α}
    {kv : κ × α} : kv ∈ mapSet m k v → kv = (k, v) ∨ kv ∈ m := by
  induction m with
  | nil =>
    intro h
    simpa [mapSet] using h
  | cons p rest ih =>
    obtain ⟨a, b⟩ := p
    intro h
    by_cases ha : a = k
    · subst ha
      simp only [mapSet, if_pos rfl] at h
      cases h with
      | head => exact Or.inl rfl
      | tail _ h1 => exact Or.inr (List.mem_cons_of_mem _ h1)
    · simp only [mapSet, if_neg ha] at h
      cases h with
      | head => exact Or.inr (List.mem_cons_self _ _)
      | tail _ h1 =>
        cases ih h1 with
        | inl h2 => exact Or.inl h2
        | inr h2 => exact Or.inr (List.mem_cons_of_mem _ h2)

theorem mapSet_append {κ α : Type} [DecidableEq κ] (m : List (κ × α)) (k : κ) (v : α) :
    k ∉ m.map Prod.fst → mapSet m k v = m ++ [(k, v)] := by
  induction m with
  | nil =>
    intro _
    simp [mapSet]
  | cons p rest ih =>
    obtain ⟨a, b⟩ := p
    intro h
    simp only [List.map_cons, List.mem_cons] at h
    push_neg at h
    have ha : a ≠ k := fun hh => h.1 hh.symm
    simp [mapSet, ha, ih h.2]

namespace Flow

/-! ### Claim C7 -/

/-- Claim C7: for a definition with a non-empty name, `flow.Register` on a
duplicate name returns an error and leaves the registry unchanged;
`flow.Upsert` succeeds, makes `Get` return the new definition, and is
idempotent; and `skill.Register` is likewise strict on duplicates. -/
theorem flow_register_upsert_spec (reg : Registry) (f : Definition)
    (hname : f.Name ≠ "") :
    ((mapGet reg f.Name).isSome = true →
      Register reg (some f) = (reg, .error "flow already registered")) ∧
    Upsert reg (some f) = (mapSet reg f.Name f, .ok ()) ∧
    (Get (Upsert reg (some f)).1 f.Name).1 = some f ∧
    (Upsert (Upsert reg (some f)).1 (some f)).1 = (Upsert reg (some f)).1 ∧
    ∀ (sreg : Skill.Registry) (s : Skill.Skill), s.Name ≠ "" →
      (mapGet sreg s.Name).isSome = true →
        Skill.Register sreg (some s) = (sreg, .error "skill already registered") := by
  refine ⟨?_, ?_, ?_, ?_, ?_⟩
  · intro hdup
    obtain ⟨v, hv⟩ := Option.isSome_iff_exists.mp hdup
    simp [Register, hname, hv]
  · simp [Upsert, hname]
  · simp [Get, Upsert, hname, mapGet_mapSet_self]
  · simp [Upsert, hname, mapSet_mapSet_self]
  · intro sreg s hsname hdup
    obtain ⟨v, hv⟩ := Option.isSome_iff_exists.mp hdup
    simp [Skill.Register, hsname, hv]

/-- Closed instance of `flow_register_upsert_spec`: the registry already
holds a flow named `a`, and a second definition with the same name is
registered and upserted. -/
theorem flow_register_upsert_spec_witness :
    (Definition.mk "a" 2).Name ≠ "" ∧
    (((mapGet [("a", Definition.mk "a" 1)] (Definition.mk "a" 2).Name).isSome = true →
      Register [("a", Definition.mk "a" 1)] (some (Definition.mk "a" 2)) =
        ([("a", Definition.mk "a" 1)], .error "flow already registered")) ∧
    Upsert [("a", Definition.mk "a" 1)] (some (Definition.mk "a" 2)) =
      (mapSet [("a", Definition.mk "a" 1)] (Definition.mk "a" 2).Name (Definition.mk "a" 2),
        .ok ()) ∧
    (Get (Upsert [("a", Definition.mk "a" 1)] (some (Definition.mk "a" 2))).1
        (Definition.mk "a" 2).Name).1 = some (Definition.mk "a" 2) ∧
    (Upsert (Upsert [("a", Definition.mk "a" 1)] (some (Definition.mk "a" 2))).1
        (some (Definition.mk "a" 2))).1 =
      (Upsert [("a", Definition.mk "a" 1)] (some (Definition.mk "a" 2))).1 ∧
    ∀ (sreg : Skill.Registry) (s : Skill.Skill), s.Name ≠ "" →
      (mapGet sreg s.Name).isSome = true →
        Skill.Register sreg (some s) = (sreg, .error "skill already registered")) :=
  ⟨by decide, flow_register_upsert_spec [("a", Definition.mk "a" 1)] (Definition.mk "a" 2)
    (by decide)⟩

end Flow

namespace Skill

/-! ### Claim C8 -/

theorem skillRegister_preserves (reg : Registry) (s : Skill) {name : String} {v : Skill}
    (hv : mapGet reg name = some v) : mapGet (Register reg (some s)).1 name = some v := by
  by_cases hn : s.Name = ""
  · simp [Register, hn, hv]
  · cases hg : mapGet reg s.Name with
    | some w => simp [Register, hn, hg, hv]
    | none =>
      have hne : s.Name ≠ name := by
        rintro rfl
        rw [hg] at hv
        exact Option.noConfusion hv
      simp [Register, hn, hg, mapGet_mapSet_ne _ _ hne, hv]

theorem registerBuiltins_preserves : ∀ (builtins : List Skill) (reg : Registry)
    {name : String} {v : Skill}, mapGet reg name = some v →
    mapGet (RegisterBuiltins reg builtins) name = some v := by
  intro builtins
  induction builtins with
  | nil =>
    intro reg name v hv
    exact hv
  | cons s rest ih =>
    intro reg name v hv
    simp only [RegisterBuiltins, List.foldl_cons]
    exact ih _ (skillRegister_preserves reg s hv)

/-- Claim C8: loading a skill file whose parsed name is already registered
leaves the registry unchanged and reports success (`loadSkillFile` returns a
nil error), and `RegisterBuiltins` never displaces an existing registration:
the first loader of a name wins and later loads are silently skipped. -/
theorem skill_load_first_wins (reg : Registry) (s : Skill)
    (hmem : (Get reg s.Name).isSome = true)
    (breg : Registry) (builtins : List Skill) (name : String) (v : Skill)
    (hv : mapGet breg name = some v) :
    loadSkillFile reg (.ok s) = (reg, .ok ()) ∧
    mapGet (RegisterBuiltins breg builtins) name = some v := by
  refine ⟨?_, registerBuiltins_preserves builtins breg hv⟩
  simp [loadSkillFile, hmem]

/-- Closed instance of `skill_load_first_wins`: the name `k8s-debug` is
already registered (bound to a distinct skill value), then the same-named
built-in is loaded from a file and via `RegisterBuiltins`. -/
theorem skill_load_first_wins_witness :
    (Get [("k8s-debug", Skill.mk "k8s-debug" 9)] (Skill.mk "k8s-debug" 0).Name).isSome =
      true ∧
    mapGet [("k8s-debug", Skill.mk "k8s-debug" 9)] "k8s-debug" =
      some (Skill.mk "k8s-debug" 9) ∧
    (loadSkillFile [("k8s-debug", Skill.mk "k8s-debug" 9)] (.ok (Skill.mk "k8s-debug" 0)) =
      ([("k8s-debug", Skill.mk "k8s-debug" 9)], .ok ()) ∧
    mapGet (RegisterBuiltins [("k8s-debug", Skill.mk "k8s-debug" 9)] builtinSkills)
        "k8s-debug" = some (Skill.mk "k8s-debug" 9)) :=
  ⟨by decide, by decide,
    skill_load_first_wins [("k8s-debug", Skill.mk "k8s-debug" 9)] (Skill.mk "k8s-debug" 0)
      (by decide) [("k8s-debug", Skill.mk "k8s-debug" 9)] builtinSkills "k8s-debug"
      (Skill.mk "k8s-debug" 9) (by decide)⟩

end Skill

namespace Delivery

/-! ### Claim C10 -/

theorem dropWhile_rdropWhile {α : Type} (p : α → Bool) (l : List α) :
    List.dropWhile p (List.rdropWhile p (List.dropWhile p l)) =
      List.rdropWhile p (List.dropWhile p l) := by
  rw [List.dropWhile_eq_self_iff]
  intro h
  obtain ⟨t, ht⟩ := List.rdropWhile_prefix p (List.dropWhile p l)
  have hx : 0 < (List.dropWhile p l).length := by
    rw [← ht, List.length_append]
    omega
  have hq : (List.dropWhile p l).get? 0 =
      (List.rdropWhile p (List.dropWhile p l)).get? 0 := by
    nth_rewrite 1 [← ht]
    exact List.get?_append h
  have e1 := List.get?_eq_get (l := List.rdropWhile p (List.dropWhile p l)) h
  have e2 := List.get?_eq_get (l := List.dropWhile p l) hx
  have hget : (List.rdropWhile p (List.dropWhile p l)).get ⟨0, h⟩ =
      (List.dropWhile p l).get ⟨0, hx⟩ := by
    have := (e1.symm.trans hq.symm).trans e2
    exact Option.some.inj this
  rw [hget]
  exact List.dropWhile_get_zero_not p l hx

theorem trimSpace_idem (s : List Char) : trimSpace (trimSpace s) = trimSpace s := by
  unfold trimSpace
  rw [dropWhile_rdropWhile, List.rdropWhile_idempotent]

theorem normMeta_aux_invariant : ∀ (l : List (List Char × List Char))
    (acc : List (List Char × List Char)), MetaNormal acc →
    MetaNormal (List.foldl (fun acc kv =>
      let key := trimSpace kv.1
      if key = [] then acc else mapSet acc key (trimSpace kv.2)) acc l) := by
  intro l
  induction l with
  | nil => intro acc h; exact h
  | cons kv rest ih =>
    intro acc h
    rw [List.foldl_cons]
    refine ih _ ?_
    by_cases hk : trimSpace kv.1 = []
    · simpa [hk] using h
    · simp only [if_neg hk]
      constructor
      · rw [mapSet_keys]
        split_ifs with hmem
        · exact h.1
        · simp [List.nodup_append, h.1, hmem]
      · intro kv' hkv'
        rcases mapSet_mem hkv' with h' | h'
        · subst h'
          exact ⟨trimSpace_idem _, hk, trimSpace_idem _⟩
        · exact h.2 kv' h'

theorem normMeta_invariant (l : List (List Char × List Char)) :
    MetaNormal (normalizeMeta l) :=
  normMeta_aux_invariant l [] ⟨List.nodup_nil, by simp⟩

theorem normMeta_aux_fixed : ∀ (l : List (List Char × List Char))
    (acc : List (List Char × List Char)),
    (((acc ++ l).map Prod.fst).Nodup) →
    (∀ kv ∈ l, trimSpace kv.1 = kv.1 ∧ kv.1 ≠ [] ∧ trimSpace kv.2 = kv.2) →
    List.foldl (fun acc kv =>
      let key := trimSpace kv.1
      if key = [] then acc else mapSet acc key (trimSpace kv.2)) acc l = acc ++ l := by
  intro l
  induction l with
  | nil => intro acc _ _; simp
  | cons kv rest ih =>
    intro acc hnd hall
    obtain ⟨h1, h2, h3⟩ := hall kv (List.mem_cons_self kv rest)
    have hk : ¬trimSpace kv.1 = [] := by rw [h1]; exact h2
    have hnotin : kv.1 ∉ acc.map Prod.fst := by
      rw [List.map_append, List.nodup_append] at hnd
      intro hc
      exact hnd.2.2 hc (by simp)
    have hnd' : (((acc ++ [kv]) ++ rest).map Prod.fst).Nodup := by
      rw [List.append_assoc, List.singleton_append]
      exact hnd
    simp only [List.foldl_cons]
    rw [if_neg hk, h1, h3, mapSet_append acc kv.1 kv.2 hnotin, Prod.mk.eta]
    rw [ih (acc ++ [kv]) hnd' (fun x hx => hall x (List.mem_cons_of_mem _ hx))]
    rw [List.append_assoc, List.singleton_append]

theorem normMeta_fixed {l : List (List Char × List Char)} (h : MetaNormal l) :
    normalizeMeta l = l := by
  have := normMeta_aux_fixed l [] (by simpa using h.1) h.2
  simpa using this

theorem normMeta_aux_nil : ∀ (l : List (List Char × List Char))
    (acc : List (List Char × List Char)),
    (List.foldl (fun acc kv =>
      let key := trimSpace kv.1
      if key = [] then acc else mapSet acc key (trimSpace kv.2)) acc l = [] ↔
      (acc = [] ∧ ∀ kv ∈ l, trimSpace kv.1 = [])) := by
  intro l
  induction l with
  | nil => intro acc; simp
  | cons kv rest ih =>
    intro acc
    rw [List.foldl_cons]
    by_cases hk : trimSpace kv.1 = []
    · simp only [if_pos hk, ih]
      simp [hk]
    · simp only [if_neg hk, ih]
      simp only [List.mem_cons]
      constructor
      · rintro ⟨hmn, -⟩
        exact absurd hmn (mapSet_ne_nil _ _ _)
      · rintro ⟨-, hall⟩
        exact absurd (hall kv (Or.inl rfl)) hk

theorem normalizeMeta_nil_iff (l : List (List Char × List Char)) :
    normalizeMeta l = [] ↔ ∀ kv ∈ l, trimSpace kv.1 = [] := by
  simpa using normMeta_aux_nil l []

theorem normalize_some_eq (t : Target) :
    Normalize (some t) =
      (if trimSpace t.Channel = [] ∧ trimSpace t.Destination = [] ∧
          trimSpace t.ThreadID = [] ∧ trimSpace t.UserID = [] ∧
          (if t.Metadata = [] then ([] : List (List Char × List Char))
            else normalizeMeta t.Metadata) = []
        then none
        else some (Target.mk (trimSpace t.Channel) (trimSpace t.Destination)
          (trimSpace t.ThreadID) (trimSpace t.UserID)
          (if t.Metadata = [] then [] else normalizeMeta t.Metadata))) := rfl

theorem outMeta_nil_iff (t : Target) :
    (if t.Metadata = [] then ([] : List (List Char × List Char))
      else normalizeMeta t.Metadata) = [] ↔
    ∀ kv ∈ t.Metadata, trimSpace kv.1 = [] := by
  by_cases hm : t.Metadata = []
  · simp [hm]
  · rw [if_neg hm]
    exact normalizeMeta_nil_iff _

/-- Claim C10: `delivery.Normalize` is idempotent, and it returns nil
exactly when, after trimming, `Channel`, `Destination`, `ThreadID` and
`UserID` are all empty and the metadata map has no entry whose trimmed key
is non-empty. -/
theorem delivery_normalize_spec :
    (∀ t : Option Target, Normalize (Normalize t) = Normalize t) ∧
    (∀ t : Target,
      (Normalize (some t) = none ↔
        (trimSpace t.Channel = [] ∧ trimSpace t.Destination = [] ∧
         trimSpace t.ThreadID = [] ∧ trimSpace t.UserID = [] ∧
         ∀ kv ∈ t.Metadata, trimSpace kv.1 = []))) := by
  constructor
  · intro t
    cases t with
    | none => rfl
    | some t =>
      rw [normalize_some_eq t]
      by_cases h : trimSpace t.Channel = [] ∧ trimSpace t.Destination = [] ∧
          trimSpace t.ThreadID = [] ∧ trimSpace t.UserID = [] ∧
          (if t.Metadata = [] then ([] : List (List Char × List Char))
            else normalizeMeta t.Metadata) = []
      · rw [if_pos h]
        rfl
      · rw [if_neg h]
        rw [normalize_some_eq]
        have hc := trimSpace_idem t.Channel
        have hdst := trimSpace_idem t.Destination
        have hth := trimSpace_idem t.ThreadID
        have hu := trimSpace_idem t.UserID
        have hm : (if (if t.Metadata = [] then ([] : List (List Char × List Char))
              else normalizeMeta t.Metadata) = [] then ([] : List (List Char × List Char))
            else normalizeMeta (if t.Metadata = [] then []
              else normalizeMeta t.Metadata)) =
            (if t.Metadata = [] then [] else normalizeMeta t.Metadata) := by
          by_cases hmm : (if t.Metadata = [] then ([] : List (List Char × List Char))
              else normalizeMeta t.Metadata) = []
          · rw [if_pos hmm]
            exact hmm.symm
          · rw [if_neg hmm]
            have ht : t.Metadata ≠ [] := by
              intro hh
              exact hmm (by rw [if_pos hh])
            rw [if_neg ht]
            exact normMeta_fixed (normMeta_invariant t.Metadata)
        dsimp only
        rw [hc, hdst, hth, hu, hm]
        rw [if_neg h]
  · intro t
    rw [normalize_some_eq t]
    by_cases h : trimSpace t.Channel = [] ∧ trimSpace t.Destination = [] ∧
        trimSpace t.ThreadID = [] ∧ trimSpace t.UserID = [] ∧
        (if t.Metadata = [] then ([] : List (List Char × List Char))
          else normalizeMeta t.Metadata) = []
    · rw [if_pos h]
      refine iff_of_true rfl ?_
      obtain ⟨h1, h2, h3, h4, h5⟩ := h
      exact ⟨h1, h2, h3, h4, (outMeta_nil_iff t).mp h5⟩
    · rw [if_neg h]
      refine iff_of_false (by simp) ?_
      rintro ⟨h1, h2, h3, h4, h5⟩
      exact h ⟨h1, h2, h3, h4, (outMeta_nil_iff t).mpr h5⟩

/-- Closed instance of `delivery_normalize_spec`: idempotence on a target
with untrimmed fields and metadata, and the nil condition on a target with
only whitespace content. -/
theorem delivery_normalize_spec_witness :
    Normalize (Normalize (some (Target.mk " dev ".toList "".toList "".toList " u1 ".toList
        [(" k ".toList, " v ".toList), ("".toList, "x".toList)]))) =
      Normalize (some (Target.mk " dev ".toList "".toList "".toList " u1 ".toList
        [(" k ".toList, " v ".toList), ("".toList, "x".toList)])) ∧
    (Normalize (some (Target.mk "  ".toList "".toList " ".toList "".toList
        [("  ".toList, "x".toList)])) = none ↔
      (trimSpace (Target.mk "  ".toList "".toList " ".toList "".toList
          [("  ".toList, "x".toList)]).Channel = [] ∧
       trimSpace (Target.mk "  ".toList "".toList " ".toList "".toList
          [("  ".toList, "x".toList)]).Destination = [] ∧
       trimSpace (Target.mk "  ".toList "".toList " ".toList "".toList
          [("  ".toList, "x".toList)]).ThreadID = [] ∧
       trimSpace (Target.mk "  ".toList "".toList " ".toList "".toList
          [("  ".toList, "x".toList)]).UserID = [] ∧
       ∀ kv ∈ (Target.mk "  ".toList "".toList " ".toList "".toList
          [("  ".toList, "x".toList)]).Metadata, trimSpace kv.1 = [])) :=
  ⟨delivery_normalize_spec.1 (some (Target.mk " dev ".toList "".toList "".toList
      " u1 ".toList [(" k ".toList, " v ".toList), ("".toList, "x".toList)])),
   delivery_normalize_spec.2 (Target.mk "  ".toList "".toList " ".toList "".toList
      [("  ".toList, "x".toList)])⟩

end Delivery

end AgentSDK
